import Mathlib

/-!
Shallow embedding of the key-pool management subsystem of the proxy:
the Anthropic key provider (src/shared/key-management/anthropic/provider.ts)
and the OpenAI key checker (scheduler and probe-failure classification).
Timestamps and counters are modelled as `Int` (JS numbers used integrally);
a thrown exception is modelled as an `Option`/`none` result.
-/

/-- Lockout applied after a confirmed 429 from the vendor (ms). -/
def RATE_LIMIT_LOCKOUT : Int := 2000

/-- Defensive lockout applied at selection time (ms). -/
def KEY_REUSE_DELAY : Int := 500

/-- ANTHROPIC_SUPPORTED_MODELS from provider.ts. -/
def ANTHROPIC_SUPPORTED_MODELS : List String :=
  ["claude-instant-v1", "claude-instant-v1-100k", "claude-v1", "claude-v1-100k", "claude-2"]

/-- One Anthropic key record: the base `Key` fields plus the Anthropic-specific
fields (`rateLimitedAt`, `rateLimitedUntil`, `requiresPreamble`, `isPozzed`) and
the single per-family usage counter `claudeTokens`. -/
structure AKey where
  key : String
  hash : String
  isDisabled : Bool
  isPozzed : Bool
  requiresPreamble : Bool
  lastUsed : Int
  lastChecked : Int
  rateLimitedAt : Int
  rateLimitedUntil : Int
  promptCount : Int
  claudeTokens : Int
deriving Repr, DecidableEq

/-- A partial update (`Partial<AnthropicKey>`) restricted to the fields this
repository actually passes to `update`. -/
structure APatch where
  isDisabled : Option Bool := none
  isPozzed : Option Bool := none
  lastChecked : Option Int := none
deriving Repr, DecidableEq

/-- Object.assign(key, \x7b lastChecked: Date.now(), ...update \x7d): every field present
in the patch wins; `lastChecked` defaults to `now` when the patch omits it. -/
def applyPatch (now : Int) (p : APatch) (k : AKey) : AKey :=
  { k with
    lastChecked := p.lastChecked.getD now
    isDisabled := p.isDisabled.getD k.isDisabled
    isPozzed := p.isPozzed.getD k.isPozzed }

/-- Replace the first element satisfying `p` (the object `Array.prototype.find`
returns, mutated in place). -/
def replaceFirst (p : α → Bool) (f : α → α) : List α → List α
  | [] => []
  | x :: xs => if p x then f x :: xs else x :: replaceFirst p f xs

/-- update(hash, update): find the key by hash and merge the patch. The source
uses a non-null assertion on `find`; an unknown hash makes `Object.assign`
throw a TypeError, modelled as `none`. -/
def update (now : Int) (pool : List AKey) (h : String) (p : APatch) : Option (List AKey) :=
  if (pool.find? (fun k => k.hash == h)).isSome then
    some (replaceFirst (fun k => k.hash == h) (applyPatch now p) pool)
  else
    none

/-- disable(key): no-op when the hash is unknown or the key is already disabled. -/
def disable (pool : List AKey) (key : AKey) : List AKey :=
  match pool.find? (fun k => k.hash == key.hash) with
  | none => pool
  | some keyFromPool =>
    if keyFromPool.isDisabled then pool
    else replaceFirst (fun k => k.hash == key.hash) (fun k => { k with isDisabled := true }) pool

/-- incrementUsage(hash, model, tokens): silently ignores an unknown hash;
otherwise bumps `promptCount` and `claudeTokens` (the model argument is unused
by the Anthropic provider, which has a single model family). -/
def incrementUsage (pool : List AKey) (h : String) (tokens : Int) : List AKey :=
  match pool.find? (fun k => k.hash == h) with
  | none => pool
  | some _ =>
    replaceFirst (fun k => k.hash == h)
      (fun k => { k with promptCount := k.promptCount + 1, claudeTokens := k.claudeTokens + tokens })
      pool

/-- markRateLimited(keyHash): non-null assertion on `find`; an unknown hash
throws (modelled as `none`), a known one opens the confirmed lockout window. -/
def markRateLimited (now : Int) (pool : List AKey) (h : String) : Option (List AKey) :=
  if (pool.find? (fun k => k.hash == h)).isSome then
    some (replaceFirst (fun k => k.hash == h)
      (fun k => { k with rateLimitedAt := now, rateLimitedUntil := now + RATE_LIMIT_LOCKOUT })
      pool)
  else
    none

/-- The comparator's notion of a recently rate-limited key:
`now - a.rateLimitedAt < RATE_LIMIT_LOCKOUT`. -/
def rateLimited (now : Int) (k : AKey) : Bool :=
  decide (now - k.rateLimitedAt < RATE_LIMIT_LOCKOUT)

/-- The sort comparator used by `get` (negative means `a` ranks before `b`). -/
def keyCmp (now : Int) (a b : AKey) : Int :=
  let aRateLimited := rateLimited now a
  let bRateLimited := rateLimited now b
  if aRateLimited && !bRateLimited then 1
  else if !aRateLimited && bRateLimited then -1
  else if aRateLimited && bRateLimited then a.rateLimitedAt - b.rateLimitedAt
  else if a.isPozzed && !b.isPozzed then 1
  else if !a.isPozzed && b.isPozzed then -1
  else a.lastUsed - b.lastUsed

/-- `a` strictly outranks `b` under the comparator. -/
def outranks (now : Int) (a b : AKey) : Bool :=
  decide (keyCmp now a b < 0)

/-- Head of the stable sort by `keyCmp`: the first element no other element
strictly outranks. Elements are carried with their position so the caller can
write the mutation back. -/
def selectBest (now : Int) : List (Nat × AKey) → Option (Nat × AKey)
  | [] => none
  | x :: xs =>
    some (xs.foldl (fun best p => if outranks now p.2 best.2 then p else best) x)

/-- The in-place mutation `get` performs on the selected record. -/
def mutateSelected (now : Int) (k : AKey) : AKey :=
  { k with lastUsed := now, rateLimitedAt := now, rateLimitedUntil := now + KEY_REUSE_DELAY }

/-- get(model): filter enabled keys, pick the best by the comparator, stamp
`lastUsed` and the defensive lockout on the pool record, return a copy.
`none` models the thrown "No Anthropic keys available." error. -/
def get (now : Int) (pool : List AKey) : Option (AKey × List AKey) :=
  let enabled := pool.enum.filter (fun p => !p.2.isDisabled)
  match selectBest now enabled with
  | none => none
  | some (i, k) =>
    let k' := mutateSelected now k
    some (k', pool.set i k')

/-- available(): count of non-disabled keys. -/
def available (pool : List AKey) : Nat :=
  (pool.filter (fun k => !k.isDisabled)).length

/-- getLockoutPeriod(model): 0 when no active keys or some active key is not
currently rate limited; otherwise the minimum `rateLimitedUntil - now`. -/
def getLockoutPeriod (now : Int) (pool : List AKey) : Int :=
  let activeKeys := pool.filter (fun k => !k.isDisabled)
  match activeKeys with
  | [] => 0
  | a :: rest =>
    let active := a :: rest
    let rateLimitedKeys := active.filter (fun k => decide (now < k.rateLimitedUntil))
    if rateLimitedKeys.length < active.length then 0
    else
      (rest.map (fun k => k.rateLimitedUntil - now)).foldl
        (fun b x => if x < b then x else b) (a.rateLimitedUntil - now)

/-- The patch recheck() passes to update for every key. -/
def recheckPatch : APatch :=
  { isPozzed := some false, isDisabled := some false, lastChecked := some (0 : Int) }

/-- One iteration of recheck()'s forEach: an update by a hash taken from the
pool itself, so the `none` (throw) branch is unreachable. -/
def recheckStep (now : Int) (pool : List AKey) (h : String) : List AKey :=
  match update now pool h recheckPatch with
  | some p => p
  | none => pool

/-- recheck(): reset `isPozzed`, `isDisabled` and `lastChecked` on every key via
`update`, then ask the checker (when one exists) to recompute its schedule. -/
def recheck (now : Int) (pool : List AKey) (hasChecker : Bool) : List AKey × Bool :=
  ((pool.map (fun k => k.hash)).foldl (recheckStep now) pool, hasChecker)

/-- Provider state produced by init(): the loaded pool, and whether a checker
was constructed and started. -/
structure ProviderInit where
  keys : List AKey
  checkerStarted : Bool
deriving Repr, DecidableEq

/-- init(): an empty load returns early with a warning, before the checker is
constructed; otherwise the keys are adopted and, if checking is enabled by
configuration, the checker is started. -/
def init (loadedKeys : List AKey) (checkKeys : Bool) : ProviderInit :=
  match loadedKeys with
  | [] => { keys := [], checkerStarted := false }
  | ks => { keys := ks, checkerStarted := checkKeys }

/-! OpenAI key checker (the `OpenAIKeyChecker` source file): scheduling of
probes and classification of probe failures. -/

/-- Minimum time between any two key checks (ms). -/
def MIN_CHECK_INTERVAL : Int := 3 * 1000

/-- Minimum time between checks of the same key (ms). -/
def KEY_CHECK_PERIOD : Int := 30 * 60 * 1000

/-- One OpenAI key record, restricted to the fields the checker reads or the
probe-failure paths write. -/
structure OKey where
  key : String
  hash : String
  isDisabled : Bool
  isTrial : Bool
  isGpt4 : Bool
  lastChecked : Int
  softLimit : Int
  hardLimit : Int
  systemHardLimit : Int
deriving Repr, DecidableEq

/-- A partial update to an OpenAI key, restricted to the fields the
probe-failure paths pass. -/
structure OPatch where
  isDisabled : Option Bool := none
  lastChecked : Option Int := none
deriving Repr, DecidableEq

/-- Merging an OpenAI patch into a key: fields present in the patch win,
`lastChecked` defaults to `now`. -/
def applyOPatch (now : Int) (p : OPatch) (k : OKey) : OKey :=
  { k with
    lastChecked := p.lastChecked.getD now
    isDisabled := p.isDisabled.getD k.isDisabled }

/-- Modelled from the spec: the OpenAI provider's `update(hash, fields)`
callback handed to the checker at construction. The OpenAI provider source is
not in the tree; per the spec, update merges the given fields into the matching
record and stamps `lastChecked = now` unless the caller supplies a different
value, and an unknown hash is silently ignored. -/
def oupdate (now : Int) (pool : List OKey) (h : String) (p : OPatch) : List OKey :=
  replaceFirst (fun k => k.hash == h) (applyOPatch now p) pool

/-- Outcome of a failed probe, as seen by `handleAxiosError`: either a
structured vendor response (HTTP status plus the `error.type` string, empty
when the body lacks a truthy `error.type`) or a network-level failure with no
structured response. -/
inductive ProbeFailure where
  | response (status : Nat) (errorType : String)
  | network
deriving Repr, DecidableEq

/-- handleAxiosError: classify a failed probe and push the result through the
update callback. A response body without a truthy `error.type` falls through to
the network-error branch (log only). -/
def handleAxiosError (now : Int) (pool : List OKey) (h : String) :
    ProbeFailure → List OKey
  | .response status errorType =>
    if errorType ≠ "" then
      if status = 401 then
        oupdate now pool h { isDisabled := some true }
      else if status = 429 ∧ errorType = "insufficient_quota" then
        oupdate now pool h { isDisabled := some true }
      else if status = 429 ∧ errorType = "access_terminated" then
        oupdate now pool h { isDisabled := some true }
      else if status = 429 ∧ errorType = "billing_not_active" then
        oupdate now pool h { isDisabled := some true }
      else if status = 429 ∧ (errorType = "requests" ∨ errorType = "tokens") then
        if errorType = "requests" then
          oupdate now pool h { lastChecked := some (now - (KEY_CHECK_PERIOD - 15 * 1000)) }
        else
          oupdate now pool h { lastChecked := some now }
      else
        pool
    else
      pool
  | .network => pool

/-- The catch block of checkKey: touch the key with an empty patch first (to
stamp `lastChecked`), then classify the failure. -/
def onProbeFailure (now : Int) (pool : List OKey) (h : String) (e : ProbeFailure) : List OKey :=
  handleAxiosError now (oupdate now pool h {}) h e

/-- What scheduleNextCheck decides to do: halt with no timer, arm a startup
batch (probe the listed keys concurrently after `delayMs`, then recompute the
schedule), or arm a single probe of one key at absolute time `checkAt`. -/
inductive ScheduleDecision where
  | halt
  | batch (hashes : List String) (delayMs : Int)
  | single (hash : String) (checkAt : Int)
deriving Repr, DecidableEq

/-- scheduleNextCheck, as a function of the pool and of `lastCheck` (the time
the last probe completed). `!key.lastChecked` is falsy exactly at the
never-checked sentinel 0. -/
def scheduleNextCheck (keys : List OKey) (lastCheck : Int) : ScheduleDecision :=
  let enabledKeys := keys.filter (fun k => !k.isDisabled)
  match enabledKeys with
  | [] => .halt
  | e :: es =>
    let uncheckedKeys := (e :: es).filter (fun k => k.lastChecked == 0)
    if !uncheckedKeys.isEmpty then
      .batch ((uncheckedKeys.take 12).map (fun k => k.hash)) 250
    else
      let oldestKey :=
        es.foldl (fun oldest key => if key.lastChecked < oldest.lastChecked then key else oldest) e
      .single oldestKey.hash
        (max (oldestKey.lastChecked + KEY_CHECK_PERIOD) (lastCheck + MIN_CHECK_INTERVAL))

/-! Aliasing model of `get` for the snapshot claim. JS objects live on a heap;
the provider's key list is a list of addresses into it. `filter` and `sort`
copy the array of references but not the objects, the selected object is
mutated through its reference, and the spread `\x7b ...selectedKey \x7d` allocates a
fresh object. -/

/-- get, against an explicit heap: `heap` holds the key objects (addressed by
index), `refs` is the provider's key list. Returns the address of the freshly
allocated snapshot together with the new heap. -/
def getRef (now : Int) (heap : List AKey) (refs : List Nat) : Option (Nat × List AKey) :=
  let enabled := refs.filterMap (fun r =>
    match heap[r]? with
    | some k => if k.isDisabled then none else some (r, k)
    | none => none)
  match selectBest now enabled with
  | none => none
  | some (r, k) =>
    let k' := mutateSelected now k
    let heap1 := heap.set r k'
    some (heap1.length, heap1 ++ [k'])

/-! Definitions following the claims' words rather than the source, for
comparison with the source's behaviour. -/

/-- Strict lexicographic order on rank triples. -/
def ltKey (x y : Int × Int × Int) : Prop :=
  x.1 < y.1 ∨ (x.1 = y.1 ∧ (x.2.1 < y.2.1 ∨ (x.2.1 = y.2.1 ∧ x.2.2 < y.2.2)))

instance : DecidableRel ltKey := fun x y => by unfold ltKey; infer_instance

/-- Rank triple realizing the comparator actually used by `get`: recently
rate-limited keys (within RATE_LIMIT_LOCKOUT of `rateLimitedAt`) sink, ordered
among themselves by `rateLimitedAt`; fresh keys are ordered by the pozzed flag
then by `lastUsed`. -/
def sortKey (now : Int) (k : AKey) : Int × Int × Int :=
  if rateLimited now k then (1, k.rateLimitedAt, 0)
  else (0, if k.isPozzed then 1 else 0, k.lastUsed)

/-- Follows the claim's words, not the source: the claim ranks keys with
"currently locked out" meaning `now < rateLimitedUntil`, then earliest
`rateLimitedAt` among locked-out keys, then the pozzed flag among the rest,
then least-recently-used. -/
def claimSortKey (now : Int) (k : AKey) : Int × Int × Int :=
  if now < k.rateLimitedUntil then (1, k.rateLimitedAt, k.lastUsed)
  else (0, if k.isPozzed then 1 else 0, k.lastUsed)

/-- Follows the claim's words, not the source: the non-disabled key the claim
says `get` must return (first of the pool under the claim's ranking). -/
def claimRankedBest (now : Int) (pool : List AKey) : Option AKey :=
  match pool.filter (fun k => !k.isDisabled) with
  | [] => none
  | x :: xs =>
    some (xs.foldl
      (fun best k => if ltKey (claimSortKey now k) (claimSortKey now best) then k else best) x)

/-- Modelled from the spec: the model-family mapping lives in
src/shared/models.ts, which is absent from the tree; per the spec the family is
implied by the model name's prefix, and every Anthropic (claude-prefixed) model
maps to the `claude` family, whose token counter is `claudeTokens`. -/
def modelFamily (model : String) : String :=
  if model.data.take 6 = "claude".data then "claude" else "gpt"

/-! Concrete key records used by witnesses and counterexamples. -/

/-- A baseline healthy key. -/
def kBase : AKey :=
  { key := "sk-a", hash := "a", isDisabled := false, isPozzed := false
    requiresPreamble := false, lastUsed := 0, lastChecked := 0
    rateLimitedAt := 0, rateLimitedUntil := 0, promptCount := 0, claudeTokens := 0 }

/-- A disabled key. -/
def kDisabled : AKey := { kBase with hash := "d", isDisabled := true }

/-- Counterexample key A: selection lockout expired 500ms ago (not locked out
by the claim's `rateLimitedUntil` test) but still within the comparator's
2000ms window from `rateLimitedAt`; not pozzed. -/
def cexA : AKey := { kBase with hash := "a", rateLimitedAt := 9000, rateLimitedUntil := 9500 }

/-- Counterexample key B: long out of both windows, but pozzed. -/
def cexB : AKey :=
  { kBase with hash := "b", isPozzed := true, rateLimitedAt := 5000, rateLimitedUntil := 5500 }

/-- A key currently locked out (rateLimitedUntil in the future of time 100). -/
def kLocked : AKey := { kBase with rateLimitedAt := 90, rateLimitedUntil := 300 }

/-- A baseline OpenAI key. -/
def okBase : OKey :=
  { key := "sk-o", hash := "o", isDisabled := false, isTrial := false, isGpt4 := false
    lastChecked := 0, softLimit := 10, hardLimit := 20, systemHardLimit := 30 }

/-- A disabled OpenAI key. -/
def okDisabled : OKey := { okBase with hash := "od", isDisabled := true }

/-- An OpenAI key that has completed a probe. -/
def okChecked : OKey := { okBase with hash := "oc", lastChecked := 500 }

/-! Generic lemmas about the left fold that keeps the first minimal element —
the shape shared by `selectBest`, the `Math.min` spread, and the checker's
oldest-key reduce. -/

/-- The element the pick-fold returns is the seed or comes from the list. -/
theorem foldl_pick_mem {α : Type} (lt : α → α → Prop) [DecidableRel lt] (a : α) (l : List α) :
    l.foldl (fun b x => if lt x b then x else b) a ∈ a :: l := by
  induction l generalizing a with
  | nil => simp
  | cons p ps ih =>
    simp only [List.foldl_cons]
    rcases List.mem_cons.mp (ih (if lt p a then p else a)) with h | h
    · rw [h]
      by_cases hb : lt p a
      · simp [hb]
      · simp [hb]
    · exact List.mem_cons_of_mem _ (List.mem_cons_of_mem _ h)

/-- When `lt` is asymmetric and its complement is transitive (a strict weak
order), nothing in the seed-plus-list is strictly below the pick-fold's result. -/
theorem foldl_pick_min {α : Type} (lt : α → α → Prop) [DecidableRel lt]
    (hasym : ∀ x y, lt x y → ¬ lt y x)
    (hneg : ∀ x y z, ¬ lt y x → ¬ lt z y → ¬ lt z x)
    (a : α) (l : List α) :
    ∀ x ∈ a :: l, ¬ lt x (l.foldl (fun b x => if lt x b then x else b) a) := by
  induction l generalizing a with
  | nil =>
    intro x hx
    simp only [List.mem_singleton] at hx
    subst hx
    intro hcon
    exact hasym _ _ hcon hcon
  | cons p ps ih =>
    intro x hx
    simp only [List.foldl_cons]
    by_cases hb : lt p a
    · rw [if_pos hb]
      rcases List.mem_cons.mp hx with hxa | hx'
      · rw [hxa]
        exact hneg _ _ _ (ih p p (List.mem_cons_self p ps)) (hasym _ _ hb)
      · exact ih p x hx'
    · rw [if_neg hb]
      rcases List.mem_cons.mp hx with hxa | hx'
      · rw [hxa]
        exact ih a a (List.mem_cons_self a ps)
      · rcases List.mem_cons.mp hx' with hxp | hx''
        · rw [hxp]
          exact hneg _ _ _ (ih a a (List.mem_cons_self a ps)) hb
        · exact ih a x (List.mem_cons_of_mem _ hx'')

/-- ltKey is asymmetric. -/
theorem ltKey_asym (x y : Int × Int × Int) : ltKey x y → ¬ ltKey y x := by
  obtain ⟨x1, x2, x3⟩ := x
  obtain ⟨y1, y2, y3⟩ := y
  simp only [ltKey]
  omega

/-- The complement of ltKey is transitive. -/
theorem ltKey_negtrans (x y z : Int × Int × Int) :
    ¬ ltKey y x → ¬ ltKey z y → ¬ ltKey z x := by
  obtain ⟨x1, x2, x3⟩ := x
  obtain ⟨y1, y2, y3⟩ := y
  obtain ⟨z1, z2, z3⟩ := z
  simp only [ltKey]
  omega

/-- The comparator orders keys exactly as the lexicographic order on their
rank triples. -/
theorem keyCmp_lt_iff (now : Int) (a b : AKey) :
    keyCmp now a b < 0 ↔ ltKey (sortKey now a) (sortKey now b) := by
  simp only [keyCmp, sortKey, ltKey]
  by_cases hra : rateLimited now a <;> by_cases hrb : rateLimited now b <;>
    by_cases hpa : a.isPozzed <;> by_cases hpb : b.isPozzed <;>
      simp [hra, hrb, hpa, hpb]

/-- The comparator's strict order is asymmetric. -/
theorem outranks_asym (now : Int) (a b : AKey) :
    outranks now a b = true → ¬ outranks now b a = true := by
  simp only [outranks, decide_eq_true_eq, keyCmp_lt_iff]
  exact ltKey_asym _ _

/-- The complement of the comparator's strict order is transitive. -/
theorem outranks_negtrans (now : Int) (x y z : AKey) :
    ¬ outranks now y x = true → ¬ outranks now z y = true → ¬ outranks now z x = true := by
  simp only [outranks, decide_eq_true_eq, keyCmp_lt_iff]
  exact ltKey_negtrans _ _ _

/-- Unfolding equation for get (stated because the bare name clashes with the
monadic get in tactic positions). -/
theorem get_eq (now : Int) (pool : List AKey) :
    get now pool =
      match selectBest now (pool.enum.filter fun q => !q.2.isDisabled) with
      | none => none
      | some (i, k) => some (mutateSelected now k, pool.set i (mutateSelected now k)) := rfl

/-- get when the enabled sublist is nonempty: the comparator fold picks the
winner, which is stamped and written back at its position. -/
theorem get_eq_cons (now : Int) (pool : List AKey) (x : Nat × AKey) (xs : List (Nat × AKey))
    (hE : pool.enum.filter (fun q => !q.2.isDisabled) = x :: xs) :
    get now pool =
      some (mutateSelected now
          (xs.foldl (fun best p => if outranks now p.2 best.2 then p else best) x).2,
        pool.set (xs.foldl (fun best p => if outranks now p.2 best.2 then p else best) x).1
          (mutateSelected now
            (xs.foldl (fun best p => if outranks now p.2 best.2 then p else best) x).2)) := by
  rw [get_eq, hE]
  rfl

/-- selectBest only returns an element of its input list. -/
theorem selectBest_mem (now : Int) (l : List (Nat × AKey)) (p : Nat × AKey) :
    selectBest now l = some p → p ∈ l := by
  cases l with
  | nil => intro h; cases h
  | cons x xs =>
    intro h
    injection h with h
    rw [← h]
    exact foldl_pick_mem (fun a b : Nat × AKey => outranks now a.2 b.2 = true) x xs

/-- replaceFirst acts at the index of the element `find?` locates. -/
theorem replaceFirst_of_find? {α : Type} (p : α → Bool) (f : α → α) :
    ∀ (l : List α) (x : α), l.find? p = some x →
      ∃ i, l[i]? = some x ∧ replaceFirst p f l = l.set i (f x) := by
  intro l
  induction l with
  | nil => intro x hx; simp [List.find?] at hx
  | cons y ys ih =>
    intro x hx
    by_cases hp : p y = true
    · rw [List.find?_cons_of_pos _ hp] at hx
      injection hx with hx
      subst hx
      exact ⟨0, by simp, by simp [replaceFirst, hp]⟩
    · rw [List.find?_cons_of_neg _ hp] at hx
      obtain ⟨i, hi, hr⟩ := ih x hx
      refine ⟨i + 1, by simpa using hi, ?_⟩
      simp [replaceFirst, hp, hr]

/-- Composing two first-match replacements whose inner function preserves the
predicate replaces once with the composition. -/
theorem replaceFirst_replaceFirst {α : Type} (p : α → Bool) (f g : α → α)
    (hpres : ∀ x, p x = true → p (g x) = true) :
    ∀ l : List α, replaceFirst p f (replaceFirst p g l) = replaceFirst p (fun x => f (g x)) l := by
  intro l
  induction l with
  | nil => rfl
  | cons y ys ih =>
    by_cases hp : p y = true
    · simp [replaceFirst, hp, hpres y hp]
    · simp [replaceFirst, hp, ih]

/-- update on a hash no key carries is the thrown-TypeError branch. -/
theorem update_none_of_notmem (now : Int) (p : APatch) (h : String) (l : List AKey)
    (hn : ∀ k ∈ l, k.hash ≠ h) : update now l h p = none := by
  have hfind : l.find? (fun k => k.hash == h) = none :=
    List.find?_eq_none.mpr (fun k hk => by simp only [beq_iff_eq]; exact hn k hk)
  simp [update, hfind]

/-- A recheck step by a hash the head does not carry passes the head through. -/
theorem recheckStep_cons_ne (now : Int) (x : AKey) (l : List AKey) (h : String)
    (hxh : x.hash ≠ h) : recheckStep now (x :: l) h = x :: recheckStep now l h := by
  have hpx : (x.hash == h) = false := by simpa using hxh
  simp only [recheckStep, update]
  rw [List.find?_cons_of_neg _ (by simp [hpx])]
  by_cases hf : (l.find? fun k => k.hash == h).isSome
  · simp [hf, replaceFirst, hpx]
  · simp [hf]

/-- Recheck steps by hashes the head does not carry pass the head through. -/
theorem foldl_recheckStep_cons (now : Int) (x : AKey) :
    ∀ (hs : List String) (l : List AKey), (∀ s ∈ hs, x.hash ≠ s) →
      hs.foldl (recheckStep now) (x :: l) = x :: hs.foldl (recheckStep now) l := by
  intro hs
  induction hs with
  | nil => intro l _; rfl
  | cons s ss ih =>
    intro l hx
    rw [List.foldl_cons, List.foldl_cons, recheckStep_cons_ne now x l s (hx s (by simp))]
    exact ih _ (fun t ht => hx t (by simp [ht]))

/-- The recheck fold resets exactly the three fields on every key. -/
theorem recheck_fold (now : Int) :
    ∀ (pool : List AKey), (pool.map AKey.hash).Nodup →
      (pool.map AKey.hash).foldl (recheckStep now) pool =
        pool.map (fun k => { k with isPozzed := false, isDisabled := false, lastChecked := 0 }) := by
  intro pool
  induction pool with
  | nil => intro _; rfl
  | cons k ks ih =>
    intro hnd
    rw [List.map_cons] at hnd
    obtain ⟨hknot, hndtail⟩ := List.nodup_cons.mp hnd
    rw [List.map_cons, List.foldl_cons]
    have hfind : (k :: ks).find? (fun x => x.hash == k.hash) = some k :=
      List.find?_cons_of_pos _ (by simp)
    have hstep : recheckStep now (k :: ks) k.hash =
        ({ k with isPozzed := false, isDisabled := false, lastChecked := 0 } : AKey) :: ks := by
      simp [recheckStep, update, hfind, replaceFirst, applyPatch, recheckPatch]
    rw [hstep]
    rw [foldl_recheckStep_cons now _ (ks.map AKey.hash) ks
      (by intro s hsmem heq; exact hknot (heq ▸ hsmem))]
    rw [ih hndtail]
    rfl

/-- C10: when the Store loads an empty list, init leaves the pool empty and
returns before constructing or starting the checker, even when checking is
enabled by configuration; thereafter available() is 0 and every get fails with
the no-key-available condition. -/
theorem c10_empty_load_skips_checker :
    ∀ (checkKeys : Bool) (now : Int),
      init [] checkKeys = { keys := [], checkerStarted := false } ∧
      available (init [] checkKeys).keys = 0 ∧
      get now (init [] checkKeys).keys = none := by
  intro checkKeys now
  exact ⟨rfl, rfl, rfl⟩

/-- C2 counterexample: the claim says update and markRateLimited on a hash
matching no key are silent no-ops that do not raise, but both use a non-null
assertion on `find`; on a one-key pool and a foreign hash the lookup yields
`undefined` and the subsequent field write / Object.assign throws a TypeError,
modelled here as the `none` result. -/
theorem c2_unknown_hash_counterexample :
    update 0 [kBase] "zzz" {} = none ∧ markRateLimited 0 [kBase] "zzz" = none :=
  ⟨rfl, rfl⟩

/-- C2 amended: for a hash matching no key, incrementUsage and disable are
silent no-ops leaving every key unchanged, while update and markRateLimited
throw a TypeError (modelled as `none`) and also leave every key unchanged. -/
theorem c2_unknown_hash_amended (now : Int) (pool : List AKey) (h : String) (p : APatch)
    (tokens : Int) (key : AKey)
    (hno : ∀ k ∈ pool, k.hash ≠ h) (hnokey : ∀ k ∈ pool, k.hash ≠ key.hash) :
    update now pool h p = none ∧ markRateLimited now pool h = none ∧
    incrementUsage pool h tokens = pool ∧ disable pool key = pool := by
  have hf : pool.find? (fun k => k.hash == h) = none :=
    List.find?_eq_none.mpr (fun k hk => by simp only [beq_iff_eq]; exact hno k hk)
  have hfk : pool.find? (fun k => k.hash == key.hash) = none :=
    List.find?_eq_none.mpr (fun k hk => by simp only [beq_iff_eq]; exact hnokey k hk)
  exact ⟨by simp [update, hf], by simp [markRateLimited, hf],
    by simp [incrementUsage, hf], by simp [disable, hfk]⟩

/-- C2 witness: the amended behaviour on a concrete one-key pool and foreign
hash. -/
theorem c2_unknown_hash_witness :
    update 5 [kBase] "q" {} = none ∧ markRateLimited 5 [kBase] "q" = none ∧
    incrementUsage [kBase] "q" 7 = [kBase] ∧ disable [kBase] kDisabled = [kBase] :=
  c2_unknown_hash_amended 5 [kBase] "q" {} 7 kDisabled (by decide) (by decide)

/-- C6: markRateLimited on a known key stamps rateLimitedAt = now and
rateLimitedUntil = now + RATE_LIMIT_LOCKOUT (2000ms); a successful get stamps
the selected key with lastUsed = now, rateLimitedAt = now and
rateLimitedUntil = now + KEY_REUSE_DELAY (500ms); and the confirmed lockout is
strictly longer than the defensive reuse delay. -/
theorem c6_lockout_durations (now : Int) (pool : List AKey) (h : String) (k : AKey) :
    (pool.find? (fun x => x.hash == h) = some k →
      ∃ i, pool[i]? = some k ∧
        markRateLimited now pool h =
          some (pool.set i
            { k with rateLimitedAt := now, rateLimitedUntil := now + RATE_LIMIT_LOCKOUT })) ∧
    (∀ sel pool', get now pool = some (sel, pool') →
      sel.lastUsed = now ∧ sel.rateLimitedAt = now ∧
      sel.rateLimitedUntil = now + KEY_REUSE_DELAY) ∧
    KEY_REUSE_DELAY < RATE_LIMIT_LOCKOUT := by
  refine ⟨?_, ?_, by decide⟩
  · intro hfind
    obtain ⟨i, hi, hr⟩ := replaceFirst_of_find? _
      (fun x => { x with rateLimitedAt := now, rateLimitedUntil := now + RATE_LIMIT_LOCKOUT })
      pool k hfind
    exact ⟨i, hi, by simp [markRateLimited, hfind, hr]⟩
  · intro sel pool' hg
    rw [get_eq] at hg
    cases hsel : selectBest now (pool.enum.filter fun q => !q.2.isDisabled) with
    | none => rw [hsel] at hg; cases hg
    | some ik =>
      rw [hsel] at hg
      obtain ⟨i, k0⟩ := ik
      simp only [Option.some.injEq, Prod.mk.injEq] at hg
      obtain ⟨hsel', -⟩ := hg
      rw [← hsel']
      exact ⟨rfl, rfl, rfl⟩

/-- C6 witness: the three stamps at a concrete time on a concrete pool. -/
theorem c6_witness :
    (∃ i, ([kBase])[i]? = some kBase ∧
      markRateLimited 100 [kBase] "a" =
        some (([kBase]).set i
          { kBase with rateLimitedAt := 100, rateLimitedUntil := 100 + RATE_LIMIT_LOCKOUT })) ∧
    (mutateSelected 100 kBase).lastUsed = 100 ∧
    (mutateSelected 100 kBase).rateLimitedAt = 100 ∧
    (mutateSelected 100 kBase).rateLimitedUntil = 100 + KEY_REUSE_DELAY ∧
    KEY_REUSE_DELAY < RATE_LIMIT_LOCKOUT := by
  obtain ⟨h1, h2, h3⟩ := c6_lockout_durations 100 [kBase] "a" kBase
  obtain ⟨hl, hr, hu⟩ := h2 (mutateSelected 100 kBase) ([kBase].set 0 (mutateSelected 100 kBase)) rfl
  exact ⟨h1 (by decide), hl, hr, hu, h3⟩

/-- C9: incrementUsage on a known hash bumps that key's promptCount by one and
adds the tokens to the claude family counter (the family implied by every
supported model's name prefix), leaving every other field and every other key
unchanged. -/
theorem c9_increment_usage (pool : List AKey) (h : String) (tokens : Int) (k : AKey)
    (model : String)
    (hfind : pool.find? (fun x => x.hash == h) = some k)
    (hm : model ∈ ANTHROPIC_SUPPORTED_MODELS) :
    modelFamily model = "claude" ∧
    ∃ i, pool[i]? = some k ∧
      incrementUsage pool h tokens =
        pool.set i { k with promptCount := k.promptCount + 1,
                            claudeTokens := k.claudeTokens + tokens } ∧
      ∀ j, j ≠ i → (incrementUsage pool h tokens)[j]? = pool[j]? := by
  constructor
  · simp only [ANTHROPIC_SUPPORTED_MODELS, List.mem_cons, List.mem_singleton,
      List.not_mem_nil, or_false] at hm
    rcases hm with rfl | rfl | rfl | rfl | rfl <;> decide
  · obtain ⟨i, hi, hr⟩ := replaceFirst_of_find? _
      (fun x => { x with promptCount := x.promptCount + 1,
                         claudeTokens := x.claudeTokens + tokens })
      pool k hfind
    refine ⟨i, hi, by simp [incrementUsage, hfind, hr], ?_⟩
    intro j hj
    simp [incrementUsage, hfind, hr, List.getElem?_set_ne (Ne.symm hj)]

/-- C9 witness: a concrete increment on a one-key pool with model claude-2. -/
theorem c9_witness :
    modelFamily "claude-2" = "claude" ∧
    ∃ i, ([kBase])[i]? = some kBase ∧
      incrementUsage [kBase] "a" 100 =
        ([kBase]).set i { kBase with promptCount := kBase.promptCount + 1,
                                     claudeTokens := kBase.claudeTokens + 100 } ∧
      ∀ j, j ≠ i → (incrementUsage [kBase] "a" 100)[j]? = ([kBase])[j]? :=
  c9_increment_usage [kBase] "a" 100 kBase "claude-2" (by decide) (by decide)

/-- Two successive updates of the same hash replace once with the composition
(the patch application preserves the hash, so the first match stays put). -/
theorem oupdate_oupdate (now : Int) (pool : List OKey) (h : String) (p q : OPatch) :
    oupdate now (oupdate now pool h q) h p =
      replaceFirst (fun k => k.hash == h)
        (fun k => applyOPatch now p (applyOPatch now q k)) pool := by
  simp only [oupdate]
  exact replaceFirst_replaceFirst (fun k => k.hash == h) (applyOPatch now p)
    (applyOPatch now q) (fun x hx => hx) pool

/-- C4: every probe failure first stamps lastChecked through update(hash, \x7b\x7d);
a structured 401 and the structured 429s with types insufficient_quota,
access_terminated and billing_not_active additionally disable the key; a 429
of type requests leaves the key enabled and back-dates lastChecked so the
scheduling formula re-probes it 15 seconds later; a 429 of type tokens leaves
the key enabled with lastChecked = now; every other structured vendor error,
a response without a truthy error type, and a network-level failure change
nothing beyond the lastChecked stamp. -/
theorem c4_probe_failure_classification (now : Int) (pool : List OKey) (h : String) :
    (∀ t, t ≠ "" →
      onProbeFailure now pool h (.response 401 t) =
        replaceFirst (fun k => k.hash == h)
          (fun k => { k with lastChecked := now, isDisabled := true }) pool) ∧
    (onProbeFailure now pool h (.response 429 "insufficient_quota") =
      replaceFirst (fun k => k.hash == h)
        (fun k => { k with lastChecked := now, isDisabled := true }) pool) ∧
    (onProbeFailure now pool h (.response 429 "access_terminated") =
      replaceFirst (fun k => k.hash == h)
        (fun k => { k with lastChecked := now, isDisabled := true }) pool) ∧
    (onProbeFailure now pool h (.response 429 "billing_not_active") =
      replaceFirst (fun k => k.hash == h)
        (fun k => { k with lastChecked := now, isDisabled := true }) pool) ∧
    (onProbeFailure now pool h (.response 429 "requests") =
      replaceFirst (fun k => k.hash == h)
        (fun k => { k with lastChecked := now - (KEY_CHECK_PERIOD - 15 * 1000) }) pool ∧
      (now - (KEY_CHECK_PERIOD - 15 * 1000)) + KEY_CHECK_PERIOD = now + 15 * 1000) ∧
    (onProbeFailure now pool h (.response 429 "tokens") =
      replaceFirst (fun k => k.hash == h)
        (fun k => { k with lastChecked := now }) pool) ∧
    (∀ status t, t ≠ "" → status ≠ 401 →
      ¬(status = 429 ∧ t = "insufficient_quota") →
      ¬(status = 429 ∧ t = "access_terminated") →
      ¬(status = 429 ∧ t = "billing_not_active") →
      ¬(status = 429 ∧ (t = "requests" ∨ t = "tokens")) →
      onProbeFailure now pool h (.response status t) =
        replaceFirst (fun k => k.hash == h)
          (fun k => { k with lastChecked := now }) pool) ∧
    (onProbeFailure now pool h .network =
      replaceFirst (fun k => k.hash == h)
        (fun k => { k with lastChecked := now }) pool) ∧
    (∀ status, onProbeFailure now pool h (.response status "") =
      replaceFirst (fun k => k.hash == h)
        (fun k => { k with lastChecked := now }) pool) := by
  refine ⟨?_, ?_, ?_, ?_, ⟨?_, by simp only [KEY_CHECK_PERIOD]; omega⟩, ?_, ?_, ?_, ?_⟩
  · intro t ht
    simp only [onProbeFailure, handleAxiosError]
    rw [if_pos ht, if_pos trivial, oupdate_oupdate]
    rfl
  · simp only [onProbeFailure, handleAxiosError]
    rw [if_pos (by decide), if_neg (by decide), if_pos (by decide), oupdate_oupdate]
    rfl
  · simp only [onProbeFailure, handleAxiosError]
    rw [if_pos (by decide), if_neg (by decide), if_neg (by decide), if_pos (by decide),
      oupdate_oupdate]
    rfl
  · simp only [onProbeFailure, handleAxiosError]
    rw [if_pos (by decide), if_neg (by decide), if_neg (by decide), if_neg (by decide),
      if_pos (by decide), oupdate_oupdate]
    rfl
  · simp only [onProbeFailure, handleAxiosError]
    rw [if_pos (by decide), if_neg (by decide), if_neg (by decide), if_neg (by decide),
      if_neg (by decide), if_pos (by decide), if_pos trivial, oupdate_oupdate]
    rfl
  · simp only [onProbeFailure, handleAxiosError]
    rw [if_pos (by decide), if_neg (by decide), if_neg (by decide), if_neg (by decide),
      if_neg (by decide), if_pos (by decide), if_neg (by decide), oupdate_oupdate]
    rfl
  · intro status t ht h401 hq1 hq2 hq3 hq45
    simp only [onProbeFailure, handleAxiosError]
    rw [if_pos ht, if_neg h401, if_neg hq1, if_neg hq2, if_neg hq3, if_neg hq45]
    simp only [oupdate]
    rfl
  · simp only [onProbeFailure, handleAxiosError, oupdate]
    rfl
  · intro status
    simp only [onProbeFailure, handleAxiosError]
    rw [if_neg (by simp)]
    simp only [oupdate]
    rfl

/-- C4 witness: the variable-argument branches (401 with a concrete error type
and an unrecognized 418 error) at a concrete time and pool. -/
theorem c4_witness :
    (onProbeFailure 1000 [okBase] "o" (.response 401 "invalid_request_error") =
      replaceFirst (fun k => k.hash == "o")
        (fun k => { k with lastChecked := 1000, isDisabled := true }) [okBase]) ∧
    (onProbeFailure 1000 [okBase] "o" (.response 418 "server_error") =
      replaceFirst (fun k => k.hash == "o")
        (fun k => { k with lastChecked := (1000 : Int) }) [okBase]) ∧
    (onProbeFailure 1000 [okBase] "o" (.response 500 "") =
      replaceFirst (fun k => k.hash == "o")
        (fun k => { k with lastChecked := (1000 : Int) }) [okBase]) :=
  ⟨(c4_probe_failure_classification 1000 [okBase] "o").1 "invalid_request_error" (by decide),
   (c4_probe_failure_classification 1000 [okBase] "o").2.2.2.2.2.2.1 418 "server_error"
     (by decide) (by decide) (by decide) (by decide) (by decide) (by decide),
   (c4_probe_failure_classification 1000 [okBase] "o").2.2.2.2.2.2.2.2 500⟩

/-- C5: scheduleNextCheck halts when every key is disabled; while some
non-disabled key is unchecked it arms a batch of at most 12 unchecked
non-disabled keys after the fixed 250ms delay (recomputing afterwards, which
the batch decision denotes); once every non-disabled key has been checked it
picks a non-disabled key with the oldest lastChecked and schedules it at
max(lastChecked + KEY_CHECK_PERIOD, lastCheck + MIN_CHECK_INTERVAL), which is
at least both rate caps. -/
theorem c5_scheduler (keys : List OKey) (lastCheck : Int) :
    ((∀ k ∈ keys, k.isDisabled = true) → scheduleNextCheck keys lastCheck = .halt) ∧
    (∀ k ∈ keys, k.isDisabled = false → k.lastChecked = 0 →
      ∃ hs, scheduleNextCheck keys lastCheck = .batch hs 250 ∧ hs.length ≤ 12 ∧
        ∀ hsh ∈ hs, ∃ j ∈ keys, j.hash = hsh ∧ j.isDisabled = false ∧ j.lastChecked = 0) ∧
    ((∃ k ∈ keys, k.isDisabled = false) →
      (∀ k ∈ keys, k.isDisabled = false → k.lastChecked ≠ 0) →
      ∃ j ∈ keys, j.isDisabled = false ∧
        (∀ k ∈ keys, k.isDisabled = false → j.lastChecked ≤ k.lastChecked) ∧
        scheduleNextCheck keys lastCheck =
          .single j.hash
            (max (j.lastChecked + KEY_CHECK_PERIOD) (lastCheck + MIN_CHECK_INTERVAL)) ∧
        j.lastChecked + KEY_CHECK_PERIOD ≤
          max (j.lastChecked + KEY_CHECK_PERIOD) (lastCheck + MIN_CHECK_INTERVAL) ∧
        lastCheck + MIN_CHECK_INTERVAL ≤
          max (j.lastChecked + KEY_CHECK_PERIOD) (lastCheck + MIN_CHECK_INTERVAL)) := by
  refine ⟨?_, ?_, ?_⟩
  · intro hall
    have hf : keys.filter (fun k => !k.isDisabled) = [] := by
      rw [List.filter_eq_nil_iff]
      intro a ha
      simp [hall a ha]
    simp [scheduleNextCheck, hf]
  · intro k hk hkd hkc
    have hkmem : k ∈ keys.filter (fun k => !k.isDisabled) :=
      List.mem_filter.mpr ⟨hk, by simp [hkd]⟩
    cases hen : keys.filter (fun k => !k.isDisabled) with
    | nil => rw [hen] at hkmem; cases hkmem
    | cons e es =>
      rw [hen] at hkmem
      have hunch : k ∈ (e :: es).filter (fun k => k.lastChecked == 0) :=
        List.mem_filter.mpr ⟨hkmem, by simp [hkc]⟩
      have hne : (!((e :: es).filter (fun k => k.lastChecked == 0)).isEmpty) = true := by
        cases hfu : (e :: es).filter (fun k => k.lastChecked == 0) with
        | nil => rw [hfu] at hunch; cases hunch
        | cons u us => simp
      simp only [scheduleNextCheck, hen]
      rw [if_pos hne]
      refine ⟨(((e :: es).filter (fun k => k.lastChecked == 0)).take 12).map
        (fun k => k.hash), rfl, ?_, ?_⟩
      · rw [List.length_map, List.length_take]
        omega
      · intro hsh hmem'
        obtain ⟨j, hjt, hjh⟩ := List.mem_map.mp hmem'
        have hjf := List.mem_of_mem_take hjt
        obtain ⟨hjen, hjc⟩ := List.mem_filter.mp hjf
        have hjen' : j ∈ keys.filter (fun k => !k.isDisabled) := by rw [hen]; exact hjen
        obtain ⟨hjk, hjd⟩ := List.mem_filter.mp hjen'
        exact ⟨j, hjk, hjh, by simpa using hjd, by simpa using hjc⟩
  · rintro ⟨k0, hk0, hk0d⟩ hall
    have hk0mem : k0 ∈ keys.filter (fun k => !k.isDisabled) :=
      List.mem_filter.mpr ⟨hk0, by simp [hk0d]⟩
    cases hen : keys.filter (fun k => !k.isDisabled) with
    | nil => rw [hen] at hk0mem; cases hk0mem
    | cons e es =>
      have hfu : (e :: es).filter (fun k => k.lastChecked == 0) = [] := by
        rw [List.filter_eq_nil_iff]
        intro x hx
        have hx' : x ∈ keys.filter (fun k => !k.isDisabled) := by rw [hen]; exact hx
        obtain ⟨hxk, hxd⟩ := List.mem_filter.mp hx'
        have hxd' : x.isDisabled = false := by simpa using hxd
        simp [hall x hxk hxd']
      have hmem := foldl_pick_mem (fun a b : OKey => a.lastChecked < b.lastChecked) e es
      have hmin := foldl_pick_min (fun a b : OKey => a.lastChecked < b.lastChecked)
        (fun x y h => by omega) (fun x y z h1 h2 => by omega) e es
      have hm2 := hmem
      rw [← hen] at hm2
      obtain ⟨hJen, hJd'⟩ := List.mem_filter.mp hm2
      have hJd : (es.foldl
          (fun b x => if x.lastChecked < b.lastChecked then x else b) e).isDisabled = false := by
        simpa using hJd'
      refine ⟨_, hJen, hJd, ?_, ?_, le_max_left _ _, le_max_right _ _⟩
      · intro k hk hkd
        have hkm : k ∈ (e :: es) := by
          rw [← hen]
          exact List.mem_filter.mpr ⟨hk, by simp [hkd]⟩
        have := hmin k hkm
        omega
      · simp only [scheduleNextCheck, hen, hfu]
        rw [if_neg (by simp)]

/-- C5 witness: the three scheduling decisions at concrete pools. -/
theorem c5_witness :
    scheduleNextCheck [okDisabled] 0 = .halt ∧
    (∃ hs, scheduleNextCheck [okBase] 0 = .batch hs 250 ∧ hs.length ≤ 12 ∧
      ∀ hsh ∈ hs, ∃ j ∈ [okBase], j.hash = hsh ∧ j.isDisabled = false ∧ j.lastChecked = 0) ∧
    (∃ j ∈ [okChecked], j.isDisabled = false ∧
      (∀ k ∈ [okChecked], k.isDisabled = false → j.lastChecked ≤ k.lastChecked) ∧
      scheduleNextCheck [okChecked] 7 =
        .single j.hash (max (j.lastChecked + KEY_CHECK_PERIOD) (7 + MIN_CHECK_INTERVAL)) ∧
      j.lastChecked + KEY_CHECK_PERIOD ≤
        max (j.lastChecked + KEY_CHECK_PERIOD) (7 + MIN_CHECK_INTERVAL) ∧
      7 + MIN_CHECK_INTERVAL ≤
        max (j.lastChecked + KEY_CHECK_PERIOD) (7 + MIN_CHECK_INTERVAL)) :=
  ⟨(c5_scheduler [okDisabled] 0).1 (by decide),
   (c5_scheduler [okBase] 0).2.1 okBase (by decide) (by decide) (by decide),
   (c5_scheduler [okChecked] 7).2.2 ⟨okChecked, by decide, by decide⟩ (by decide)⟩

/-- C8: on the heap model, the snapshot get returns is a fresh object whose
address is not among the provider's key references, so writing any mutation
through the snapshot address changes no pool key; a call to get changes only
the selected reference's object and preserves each reference's key (its hash)
in place, the reference list itself being untouched. -/
theorem c8_snapshot_isolation (now : Int) (heap : List AKey) (refs : List Nat)
    (hvalid : ∀ r ∈ refs, r < heap.length) :
    ∀ snapRef heap', getRef now heap refs = some (snapRef, heap') →
      snapRef ∉ refs ∧
      (∀ mutated : AKey, ∀ r ∈ refs, (heap'.set snapRef mutated)[r]? = heap'[r]?) ∧
      (∃ sel ∈ refs, ∀ r ∈ refs, r ≠ sel → heap'[r]? = heap[r]?) ∧
      (∀ r ∈ refs, (heap'[r]?).map AKey.hash = (heap[r]?).map AKey.hash) := by
  intro snapRef heap' hg
  simp only [getRef] at hg
  cases hsel : selectBest now (refs.filterMap fun r =>
      match heap[r]? with
      | some k => if k.isDisabled then none else some (r, k)
      | none => none) with
  | none => rw [hsel] at hg; cases hg
  | some rk =>
    rw [hsel] at hg
    obtain ⟨r0, k0⟩ := rk
    simp only [Option.some.injEq, Prod.mk.injEq] at hg
    obtain ⟨hsnap, hheap'⟩ := hg
    have hmem := selectBest_mem now _ _ hsel
    obtain ⟨a, haref, hfa⟩ := List.mem_filterMap.mp hmem
    have hak : a = r0 ∧ ∃ k, heap[a]? = some k ∧ k = k0 ∧ k.isDisabled = false := by
      cases hh : heap[a]? with
      | none => rw [hh] at hfa; cases hfa
      | some k =>
        rw [hh] at hfa
        by_cases hd : k.isDisabled
        · simp [hd] at hfa
        · simp only [hd, if_neg, Bool.false_eq_true, ite_false, Option.some.injEq,
            Prod.mk.injEq] at hfa
          exact ⟨hfa.1, k, rfl, hfa.2, by simpa using hd⟩
    obtain ⟨ha0, k, hk, hkk0, hkdis⟩ := hak
    subst ha0
    subst hkk0
    have hsnaplen : snapRef = heap.length := by
      rw [← hsnap, List.length_set]
    have hheaplen : (heap.set a (mutateSelected now k)).length = heap.length :=
      List.length_set heap a _
    refine ⟨?_, ?_, ?_, ?_⟩
    · intro hcon
      have := hvalid snapRef hcon
      omega
    · intro mutated r hr
      have hne : snapRef ≠ r := by
        have := hvalid r hr
        omega
      exact List.getElem?_set_ne hne
    · refine ⟨a, haref, ?_⟩
      intro r hr hne
      have hrlt : r < heap.length := hvalid r hr
      rw [← hheap', List.getElem?_append, if_pos (by omega)]
      exact List.getElem?_set_ne (Ne.symm hne)
    · intro r hr
      by_cases hre : r = a
      · subst hre
        have hrlt : r < heap.length := hvalid r hr
        rw [← hheap', List.getElem?_append, if_pos (by omega),
          List.getElem?_set_eq_of_lt _ (by omega), hk]
        rfl
      · have hrlt : r < heap.length := hvalid r hr
        rw [← hheap', List.getElem?_append, if_pos (by omega),
          List.getElem?_set_ne (Ne.symm hre)]

/-- C8 witness: one enabled key at heap address 0; the snapshot lands at the
fresh address 1, outside the reference list. -/
theorem c8_witness :
    ((1 : Nat) ∉ ([0] : List Nat)) ∧
    (∀ mutated : AKey, ∀ r ∈ ([0] : List Nat),
      (([mutateSelected 100 kBase, mutateSelected 100 kBase].set 1 mutated))[r]? =
        ([mutateSelected 100 kBase, mutateSelected 100 kBase])[r]?) ∧
    (∃ sel ∈ ([0] : List Nat), ∀ r ∈ ([0] : List Nat), r ≠ sel →
      ([mutateSelected 100 kBase, mutateSelected 100 kBase])[r]? = ([kBase])[r]?) ∧
    (∀ r ∈ ([0] : List Nat),
      (([mutateSelected 100 kBase, mutateSelected 100 kBase])[r]?).map AKey.hash =
        (([kBase])[r]?).map AKey.hash) :=
  c8_snapshot_isolation 100 [kBase] [0] (by decide) 1
    [mutateSelected 100 kBase, mutateSelected 100 kBase] rfl

/-- C1 counterexample: the claim defines "currently locked out" as
now < rateLimitedUntil, but the comparator in get tests
now - rateLimitedAt < RATE_LIMIT_LOCKOUT. At time 10000, key "a" (selected 1s
ago: rateLimitedUntil 9500 already passed, rateLimitedAt 9000 still inside the
2000ms window) is unlocked and unpozzed under the claim's ranking, so the claim
says get must return it ahead of the pozzed key "b"; the code demotes "a" as
recently rate limited and returns "b". Both keys are enabled and satisfy
rateLimitedAt ≤ rateLimitedUntil. -/
theorem c1_selection_counterexample :
    (claimRankedBest 10000 [cexA, cexB]).map AKey.hash = some "a" ∧
    (get 10000 [cexA, cexB]).map (fun p => p.1.hash) = some "b" ∧
    cexA.isDisabled = false ∧ cexB.isDisabled = false ∧
    cexA.rateLimitedAt ≤ cexA.rateLimitedUntil ∧
    cexB.rateLimitedAt ≤ cexB.rateLimitedUntil := by
  refine ⟨rfl, rfl, rfl, rfl, by decide, by decide⟩

/-- C1 amended: get fails exactly on pools whose every key is disabled and
never returns a disabled key; among non-disabled keys it returns (a stamped
copy of) a key no eligible key strictly outranks under the code's comparator,
which differs from the claim only in the lockout test: a key counts as locked
out while now - rateLimitedAt < RATE_LIMIT_LOCKOUT (a fixed 2000ms window from
rateLimitedAt), not while now < rateLimitedUntil; the remaining tie-breaks
(earliest rateLimitedAt among locked-out, unpozzed before pozzed, then least
recently used) are as claimed. -/
theorem c1_selection_amended (now : Int) (pool : List AKey) :
    ((∀ k ∈ pool, k.isDisabled = true) → get now pool = none) ∧
    (∀ sel pool', get now pool = some (sel, pool') →
      sel.isDisabled = false ∧
      ∃ i k0, pool[i]? = some k0 ∧ k0.isDisabled = false ∧
        sel = mutateSelected now k0 ∧ pool' = pool.set i sel ∧
        ∀ j ∈ pool, j.isDisabled = false → ¬ outranks now j k0 = true) := by
  constructor
  · intro hall
    have he : pool.enum.filter (fun q => !q.2.isDisabled) = [] := by
      rw [List.filter_eq_nil_iff]
      intro q hq
      have hq2 : q.2 ∈ pool :=
        List.mem_iff_getElem?.mpr ⟨q.1, List.mem_enum_iff_getElem?.mp hq⟩
      simp [hall q.2 hq2]
    rw [get_eq, he]
    rfl
  · intro sel pool' hg
    cases henum : pool.enum.filter (fun q => !q.2.isDisabled) with
    | nil =>
      rw [get_eq, henum] at hg
      cases hg
    | cons x xs =>
      rw [get_eq_cons now pool x xs henum] at hg
      have hmem := foldl_pick_mem (fun p q : Nat × AKey => outranks now p.2 q.2 = true) x xs
      have hmin := foldl_pick_min (fun p q : Nat × AKey => outranks now p.2 q.2 = true)
        (fun p q hpq => outranks_asym now _ _ hpq)
        (fun p q r h1 h2 => outranks_negtrans now _ _ _ h1 h2) x xs
      obtain ⟨i0, k0, hF⟩ :
          ∃ i0 k0, (xs.foldl (fun best p => if outranks now p.2 best.2 then p else best) x)
            = (i0, k0) := ⟨_, _, rfl⟩
      rw [hF] at hg hmem hmin
      simp only [Option.some.injEq, Prod.mk.injEq] at hg
      obtain ⟨hsel, hpool'⟩ := hg
      rw [← henum] at hmem
      obtain ⟨hin_enum, hdis⟩ := List.mem_filter.mp hmem
      have hdis' : k0.isDisabled = false := by simpa using hdis
      have hget0 : pool[i0]? = some k0 := List.mem_enum_iff_getElem?.mp hin_enum
      constructor
      · rw [← hsel]
        exact hdis'
      · refine ⟨i0, k0, hget0, hdis', hsel.symm, ?_, ?_⟩
        · rw [← hpool', ← hsel]
        · intro j hj hjdis
          obtain ⟨n, hn⟩ := List.mem_iff_getElem?.mp hj
          have hjenum : (n, j) ∈ pool.enum := List.mem_enum_iff_getElem?.mpr hn
          have hjfil : (n, j) ∈ pool.enum.filter (fun q => !q.2.isDisabled) :=
            List.mem_filter.mpr ⟨hjenum, by simp [hjdis]⟩
          rw [henum] at hjfil
          exact hmin (n, j) hjfil

/-- C1 witness: the all-disabled branch and a successful selection on concrete
pools. -/
theorem c1_witness :
    get 0 [kDisabled] = none ∧
    ((mutateSelected 0 kBase).isDisabled = false ∧
      ∃ i k0, ([kBase])[i]? = some k0 ∧ k0.isDisabled = false ∧
        mutateSelected 0 kBase = mutateSelected 0 k0 ∧
        [kBase].set 0 (mutateSelected 0 kBase) = [kBase].set i (mutateSelected 0 kBase) ∧
        ∀ j ∈ [kBase], j.isDisabled = false → ¬ outranks 0 j k0 = true) :=
  ⟨(c1_selection_amended 0 [kDisabled]).1 (by decide),
   (c1_selection_amended 0 [kBase]).2 (mutateSelected 0 kBase)
     ([kBase].set 0 (mutateSelected 0 kBase)) rfl⟩

/-- C3: getLockoutPeriod is 0 when the pool has no non-disabled key and 0 when
some non-disabled key is not currently locked out (now is at or past its
rateLimitedUntil); when every non-disabled key is currently locked out it is
exactly the minimum of rateLimitedUntil - now over the non-disabled keys. -/
theorem c3_lockout_period (now : Int) (pool : List AKey) :
    ((∀ k ∈ pool, k.isDisabled = true) → getLockoutPeriod now pool = 0) ∧
    ((∃ k ∈ pool, k.isDisabled = false ∧ k.rateLimitedUntil ≤ now) →
      getLockoutPeriod now pool = 0) ∧
    ((∃ k ∈ pool, k.isDisabled = false) →
      (∀ k ∈ pool, k.isDisabled = false → now < k.rateLimitedUntil) →
      (∃ k ∈ pool, k.isDisabled = false ∧
        getLockoutPeriod now pool = k.rateLimitedUntil - now) ∧
      (∀ k ∈ pool, k.isDisabled = false →
        getLockoutPeriod now pool ≤ k.rateLimitedUntil - now)) := by
  refine ⟨?_, ?_, ?_⟩
  · intro hall
    have hf : pool.filter (fun k => !k.isDisabled) = [] := by
      rw [List.filter_eq_nil_iff]
      intro a ha
      simp [hall a ha]
    simp [getLockoutPeriod, hf]
  · rintro ⟨k, hk, hkd, hku⟩
    have hkmem : k ∈ pool.filter (fun k => !k.isDisabled) :=
      List.mem_filter.mpr ⟨hk, by simp [hkd]⟩
    cases hactive : pool.filter (fun k => !k.isDisabled) with
    | nil => rw [hactive] at hkmem; cases hkmem
    | cons a rest =>
      rw [hactive] at hkmem
      have hlt : ((a :: rest).filter (fun k => decide (now < k.rateLimitedUntil))).length
          < (a :: rest).length :=
        List.length_filter_lt_length_iff_exists.mpr ⟨k, hkmem, by simp; omega⟩
      simp only [getLockoutPeriod, hactive]
      rw [if_pos hlt]
  · rintro ⟨k0, hk0, hk0d⟩ hall
    have hk0mem : k0 ∈ pool.filter (fun k => !k.isDisabled) :=
      List.mem_filter.mpr ⟨hk0, by simp [hk0d]⟩
    cases hactive : pool.filter (fun k => !k.isDisabled) with
    | nil => rw [hactive] at hk0mem; cases hk0mem
    | cons a rest =>
      have hsub : ∀ x ∈ a :: rest, x ∈ pool ∧ x.isDisabled = false := by
        intro x hx
        have hx' : x ∈ pool.filter (fun k => !k.isDisabled) := by rw [hactive]; exact hx
        have h2 := List.mem_filter.mp hx'
        exact ⟨h2.1, by simpa using h2.2⟩
      have hfeq : (a :: rest).filter (fun k => decide (now < k.rateLimitedUntil)) = a :: rest := by
        rw [List.filter_eq_self]
        intro x hx
        obtain ⟨hxp, hxd⟩ := hsub x hx
        simp [hall x hxp hxd]
      have hnlt : ¬ (((a :: rest).filter
          (fun k => decide (now < k.rateLimitedUntil))).length < (a :: rest).length) := by
        rw [hfeq]; omega
      have hval : getLockoutPeriod now pool =
          (rest.map (fun k => k.rateLimitedUntil - now)).foldl
            (fun b x => if x < b then x else b) (a.rateLimitedUntil - now) := by
        simp only [getLockoutPeriod, hactive]
        rw [if_neg hnlt]
      have hmem := foldl_pick_mem (fun x y : Int => x < y) (a.rateLimitedUntil - now)
        (rest.map (fun k => k.rateLimitedUntil - now))
      have hmin := foldl_pick_min (fun x y : Int => x < y)
        (fun x y h => by omega) (fun x y z h1 h2 => by omega)
        (a.rateLimitedUntil - now) (rest.map (fun k => k.rateLimitedUntil - now))
      constructor
      · rcases List.mem_cons.mp hmem with hh | hm
        · obtain ⟨hap, had⟩ := hsub a (by simp)
          exact ⟨a, hap, had, by rw [hval, hh]⟩
        · obtain ⟨kk, hkk, hkkv⟩ := List.mem_map.mp hm
          obtain ⟨hkp, hkdis⟩ := hsub kk (List.mem_cons_of_mem a hkk)
          exact ⟨kk, hkp, hkdis, by rw [hval, hkkv]⟩
      · intro k hk hkdis
        have hkact : k ∈ a :: rest := by
          rw [← hactive]
          exact List.mem_filter.mpr ⟨hk, by simp [hkdis]⟩
        have hvmem : k.rateLimitedUntil - now ∈
            (a.rateLimitedUntil - now) :: rest.map (fun k => k.rateLimitedUntil - now) := by
          rcases List.mem_cons.mp hkact with hka | hkr
          · rw [hka]; exact List.mem_cons_self _ _
          · exact List.mem_cons_of_mem _ (List.mem_map.mpr ⟨k, hkr, rfl⟩)
        have := hmin _ hvmem
        rw [hval]
        omega

/-- C3 witness: the three branches at concrete pools and times. -/
theorem c3_witness :
    getLockoutPeriod 0 [kDisabled] = 0 ∧
    getLockoutPeriod 50 [kBase] = 0 ∧
    ((∃ k ∈ [kLocked], k.isDisabled = false ∧
        getLockoutPeriod 100 [kLocked] = k.rateLimitedUntil - 100) ∧
      (∀ k ∈ [kLocked], k.isDisabled = false →
        getLockoutPeriod 100 [kLocked] ≤ k.rateLimitedUntil - 100)) := by
  refine ⟨(c3_lockout_period 0 [kDisabled]).1 (by decide),
          (c3_lockout_period 50 [kBase]).2.1 ⟨kBase, by decide, by decide, by decide⟩,
          (c3_lockout_period 100 [kLocked]).2.2 ⟨kLocked, by decide, by decide⟩ (by decide)⟩

/-- C7: recheck resets isDisabled, isPozzed and lastChecked (to the
never-checked sentinel 0) on every key, changes no other field, and then asks
the checker (when one exists) to recompute its schedule. -/
theorem c7_recheck_resets_all (now : Int) (pool : List AKey) (hasChecker : Bool)
    (hnd : (pool.map AKey.hash).Nodup) :
    recheck now pool hasChecker =
      (pool.map (fun k => { k with isPozzed := false, isDisabled := false, lastChecked := 0 }),
       hasChecker) := by
  simp only [recheck, recheck_fold now pool hnd]

/-- C7 witness: recheck on a concrete two-key pool with a checker attached. -/
theorem c7_witness :
    recheck 42 [kBase, kDisabled] true =
      ([{ kBase with isPozzed := false, isDisabled := false, lastChecked := 0 },
        { kDisabled with isPozzed := false, isDisabled := false, lastChecked := 0 }], true) :=
  c7_recheck_resets_all 42 [kBase, kDisabled] true (by decide)
